import Mathlib

/-!
Verification of the event-sourcing persistence subsystem benchmarked by
`scripts/event_sourcing_benchmarks/` and of the CI model-configuration
resolver `.github/run-eval/resolve_model_config.py`.

Filenames are modelled as `List Char` (Python strings compared by code
point).  The index-rebuild loop, `read_event_files`, and
`find_models_by_id`/`main` are translated from the repository's source;
the core EventLog/Indexer/Replayer/RecoveryAnalyzer/FileStore subsystem
is not part of the repository (only callers are), so those components
are modelled from the specification, as marked on each definition.
-/

/-- A filename, modelled as its list of characters (Python `str`). -/
abbrev FName := List Char

/-- Python `sorted` on a list of strings: the unique ≤-sorted permutation
(lexicographic by code point, which is the order Mathlib puts on `List Char`). -/
def pySorted (l : List FName) : List FName :=
  List.insertionSort (· ≤ ·) l

/-- Python `str.endswith(".json")`, from `benchmark_utils.read_event_files`
and the rebuild loop of `bench_replay_and_recovery.benchmark_replay_and_recovery`. -/
def endsJson (f : FName) : Bool :=
  ".json".data.isSuffixOf f

/-- Character class `[a-f0-9\-]` of the filename regex in
`bench_replay_and_recovery.py`. -/
def isIdChar (c : Char) : Bool :=
  ('a' ≤ c && c ≤ 'f') || c.isDigit || c = '-'

/-- Numeric value of an ASCII digit character. -/
def digitVal (c : Char) : Nat := c.toNat - 48

/-- Python `int` applied to a string of decimal digits
(`int(m.group(1))` in the rebuild loop). -/
def pyInt (ds : List Char) : Nat :=
  ds.foldl (fun a c => 10 * a + digitVal c) 0

/-- Strip a literal character sequence from the front of a list. -/
def stripLit : List Char → List Char → Option (List Char)
  | [], rest => some rest
  | _ :: _, [] => none
  | p :: ps, c :: cs => if c = p then stripLit ps cs else none

/-- The regex `^event-(\d+)-([a-f0-9\-]+)\.json$` of
`bench_replay_and_recovery.benchmark_replay_and_recovery`, returning the
parsed numeric index of group 1 (the only group the rebuild loop uses).
Greedy matching of `\d+` and `[a-f0-9\-]+` is realized by `takeWhile`;
backtracking cannot produce any further match because neither class
contains `-` (after digits) resp. `.` (before the suffix). -/
def matchEventName (f : FName) : Option Nat :=
  match stripLit "event-".data f with
  | none => none
  | some r1 =>
    let ds := r1.takeWhile Char.isDigit
    let r2 := r1.dropWhile Char.isDigit
    if ds.isEmpty then none
    else
      match r2 with
      | '-' :: r3 =>
        let idc := r3.takeWhile isIdChar
        let r4 := r3.dropWhile isIdChar
        if idc.isEmpty then none
        else if r4 = ".json".data then some (pyInt ds) else none
      | _ => none

/-- Python `dict` assignment `index[k] = v`: replace in place if the key is
present, otherwise append at the end (insertion order is preserved). -/
def dictInsert (m : List (Nat × FName)) (k : Nat) (v : FName) : List (Nat × FName) :=
  if m.any (fun p => p.1 = k) then
    m.map (fun p => if p.1 = k then (k, v) else p)
  else m ++ [(k, v)]

/-- The index-rebuild loop of
`bench_replay_and_recovery.benchmark_replay_and_recovery` (lines 101-107):

    files = sorted(os.listdir(events_dir))
    jfiles = [f for f in files if f.endswith(".json")]
    index = {}
    for fname in jfiles:
        m = pattern.match(fname)
        if m:
            index[int(m.group(1))] = fname

The directory listing is the input; `os.listdir` returns it in arbitrary
order. -/
def rebuildIndex (listing : List FName) : List (Nat × FName) :=
  let files := pySorted listing
  let jfiles := files.filter endsJson
  jfiles.foldl
    (fun idx fname =>
      match matchEventName fname with
      | some n => dictInsert idx n fname
      | none => idx)
    []

theorem pySorted_sorted (l : List FName) : List.Sorted (· ≤ ·) (pySorted l) :=
  List.sorted_insertionSort _ l

theorem pySorted_perm (l : List FName) : (pySorted l).Perm l :=
  List.perm_insertionSort _ l

theorem pySorted_eq_of_perm {l₁ l₂ : List FName} (h : l₁.Perm l₂) :
    pySorted l₁ = pySorted l₂ :=
  List.eq_of_perm_of_sorted
    ((pySorted_perm l₁).trans (h.trans (pySorted_perm l₂).symm))
    (pySorted_sorted l₁) (pySorted_sorted l₂)

/-- C4: For every fixed set of files in the event directory, the index
mapping rebuilt by the benchmark's rebuild loop is identical for any two runs
regardless of the order in which the directory listing returns the filenames:
rebuilding from any two listings that are permutations of each other yields
the same mapping (the listing is canonicalized by the explicit sort before
parsing). -/
theorem rebuildIndex_deterministic (l₁ l₂ : List FName) (h : l₁.Perm l₂) :
    rebuildIndex l₁ = rebuildIndex l₂ := by
  unfold rebuildIndex
  rw [pySorted_eq_of_perm h]

/-- Witness for C4: two concrete listings of the same directory content, in
different listing orders, rebuild to the same mapping. -/
theorem rebuildIndex_deterministic_witness :
    rebuildIndex ["event-1-aa.json".data, "event-0-bb.json".data, "junk.txt".data] =
      rebuildIndex ["junk.txt".data, "event-0-bb.json".data, "event-1-aa.json".data] :=
  rebuildIndex_deterministic _ _ (by decide)

/-- The event variants observed in the log, as a tagged sum
(`SystemPromptEvent, MessageEvent, ActionEvent, ObservationEvent,
ConversationStateUpdateEvent, AgentErrorEvent`).  Each carries the common
`index` and `id` fields plus its kind-specific payload; an ObservationEvent
references the `id` of the ActionEvent it resolves.
Modelled from the spec: the SDK event classes are not in the repository. -/
inductive Event where
  | systemPrompt (index : Nat) (eid : String) (content : String)
  | message (index : Nat) (eid : String) (content : String)
  | action (index : Nat) (eid : String) (tool : String) (args : String)
  | observation (index : Nat) (eid : String) (cause : String) (result : String)
  | stateUpdate (index : Nat) (eid : String) (diff : String)
  | agentError (index : Nat) (eid : String) (error : String)
deriving DecidableEq

/-- The action id contributed by an event (the `id` of an ActionEvent). -/
def actionId? : Event → Option String
  | .action _ eid _ _ => some eid
  | _ => none

/-- The action id an event resolves (the cause field of an ObservationEvent). -/
def obsCause? : Event → Option String
  | .observation _ _ cause _ => some cause
  | _ => none

/-- One step of the recovery scan.
Modelled from the spec: `RecoveryAnalyzer.find_unmatched_actions`
(`ConversationState.get_unmatched_actions` in the SDK, not in the
repository) tracks every ActionEvent's id in a pending set and removes an
id whenever an ObservationEvent referencing it is encountered. -/
def findUnmatchedStep (pending : List String) (e : Event) : List String :=
  match e with
  | .action _ eid _ _ => if eid ∈ pending then pending else pending ++ [eid]
  | .observation _ _ cause _ => pending.filter (fun a => a ≠ cause)
  | _ => pending

/-- Modelled from the spec: `find_unmatched_actions` scans the sequence once,
in order, and returns the pending set remaining after the full scan. -/
def findUnmatchedActions (events : List Event) : List String :=
  events.foldl findUnmatchedStep []

/-- The claim's characterization: some ActionEvent with id `a` occurs at a
position after which no ObservationEvent references `a`. -/
def UnmatchedAt (events : List Event) (a : String) : Prop :=
  ∃ i, ∃ h : i < events.length,
    actionId? (events.get ⟨i, h⟩) = some a ∧
      ∀ j, i < j → ∀ h2 : j < events.length,
        obsCause? (events.get ⟨j, h2⟩) ≠ some a

/-- Decomposition form of `UnmatchedAt`, convenient for induction. -/
def UnmatchedDecomp (events : List Event) (a : String) : Prop :=
  ∃ pre act suf, events = pre ++ act :: suf ∧ actionId? act = some a ∧
    ∀ e ∈ suf, obsCause? e ≠ some a

theorem mem_findUnmatchedStep {p : List String} {e : Event} {a : String} :
    a ∈ findUnmatchedStep p e ↔
      (actionId? e = some a ∨ (a ∈ p ∧ obsCause? e ≠ some a)) := by
  cases e with
  | action idx eid tool args =>
    simp only [findUnmatchedStep, actionId?, obsCause?]
    by_cases h : eid ∈ p
    · simp only [if_pos h]
      constructor
      · intro ha; exact Or.inr ⟨ha, by simp⟩
      · rintro (ha | ⟨ha, -⟩)
        · cases ha; exact h
        · exact ha
    · simp only [if_neg h, List.mem_append, List.mem_singleton]
      constructor
      · rintro (ha | rfl)
        · exact Or.inr ⟨ha, by simp⟩
        · exact Or.inl rfl
      · rintro (ha | ⟨ha, -⟩)
        · cases ha; exact Or.inr rfl
        · exact Or.inl ha
  | observation idx eid cause result =>
    simp only [findUnmatchedStep, actionId?, obsCause?, List.mem_filter,
      decide_eq_true_eq, ne_eq, Option.some.injEq]
    constructor
    · rintro ⟨hp, hne⟩; exact Or.inr ⟨hp, fun hc => hne hc.symm⟩
    · rintro (h | ⟨hp, hne⟩)
      · cases h
      · exact ⟨hp, fun hc => hne hc.symm⟩
  | systemPrompt idx eid c => simp [findUnmatchedStep, actionId?, obsCause?]
  | message idx eid c => simp [findUnmatchedStep, actionId?, obsCause?]
  | stateUpdate idx eid c => simp [findUnmatchedStep, actionId?, obsCause?]
  | agentError idx eid c => simp [findUnmatchedStep, actionId?, obsCause?]

theorem splitConcat {pre suf l : List Event} {act e : Event}
    (h : pre ++ act :: suf = l ++ [e]) :
    (pre = l ∧ act = e ∧ suf = []) ∨
      (∃ suf', suf = suf' ++ [e] ∧ pre ++ act :: suf' = l) := by
  rcases List.eq_nil_or_concat suf with rfl | ⟨s', x, rfl⟩
  · left
    have h1 : pre ++ [act] = l ++ [e] := h
    have h2 := List.append_inj' h1 rfl
    exact ⟨h2.1, by simpa using h2.2, rfl⟩
  · right
    rw [List.concat_eq_append] at h
    have h1 : (pre ++ act :: s') ++ [x] = l ++ [e] := by
      simpa [List.append_assoc] using h
    have h2 := List.append_inj' h1 rfl
    refine ⟨s', ?_, h2.1⟩
    have : x = e := by simpa using h2.2
    rw [this, List.concat_eq_append]

theorem unmatchedDecomp_append {l : List Event} {e : Event} {a : String} :
    UnmatchedDecomp (l ++ [e]) a ↔
      (actionId? e = some a ∨ (UnmatchedDecomp l a ∧ obsCause? e ≠ some a)) := by
  constructor
  · rintro ⟨pre, act, suf, heq, hact, hsuf⟩
    rcases splitConcat heq.symm with ⟨rfl, rfl, rfl⟩ | ⟨suf', rfl, rfl⟩
    · exact Or.inl hact
    · refine Or.inr ⟨⟨pre, act, suf', rfl, hact, ?_⟩, ?_⟩
      · intro x hx; exact hsuf x (by simp [hx])
      · exact hsuf e (by simp)
  · rintro (h | ⟨⟨pre, act, suf, rfl, hact, hsuf⟩, hobs⟩)
    · exact ⟨l, e, [], rfl, h, by simp⟩
    · refine ⟨pre, act, suf ++ [e], by simp, hact, ?_⟩
      intro x hx
      rcases List.mem_append.mp hx with hx | hx
      · exact hsuf x hx
      · rw [List.mem_singleton.mp hx]; exact hobs

theorem mem_findUnmatchedActions_iff_decomp (events : List Event) (a : String) :
    a ∈ findUnmatchedActions events ↔ UnmatchedDecomp events a := by
  induction events using List.reverseRecOn with
  | nil =>
    simp only [findUnmatchedActions, List.foldl_nil, List.not_mem_nil, false_iff]
    rintro ⟨pre, act, suf, heq, -, -⟩
    exact absurd heq.symm (by simp)
  | append_singleton l e ih =>
    have hfold : findUnmatchedActions (l ++ [e]) =
        findUnmatchedStep (findUnmatchedActions l) e := by
      simp [findUnmatchedActions, List.foldl_append]
    rw [hfold, mem_findUnmatchedStep, unmatchedDecomp_append, ih]

theorem consGetElemMem {α : Type} (x : α) (l : List α) (m : Nat)
    (h : m < (x :: l).length) (hm : 0 < m) : (x :: l)[m] ∈ l := by
  cases m with
  | zero => omega
  | succ d =>
    rw [List.getElem_cons_succ]
    exact List.getElem_mem _

theorem unmatchedDecomp_iff_at (events : List Event) (a : String) :
    UnmatchedDecomp events a ↔ UnmatchedAt events a := by
  constructor
  · rintro ⟨pre, act, suf, rfl, hact, hsuf⟩
    have hi : pre.length < (pre ++ act :: suf).length := by
      simp [Nat.lt_add_of_pos_right]
    refine ⟨pre.length, hi, ?_, ?_⟩
    · have : (pre ++ act :: suf).get ⟨pre.length, hi⟩ = act := by
        simp [List.getElem_append_right]
      rw [this]; exact hact
    · intro j hij h2
      have hb : j - pre.length < (act :: suf).length := by
        have := h2; simp at this ⊢; omega
      have hget : (pre ++ act :: suf).get ⟨j, h2⟩ = (act :: suf)[j - pre.length] := by
        simp only [List.get_eq_getElem,
          List.getElem_append_right (by omega : pre.length ≤ j)]
      rw [hget]
      exact hsuf _ (consGetElemMem _ _ _ hb (by omega))
  · rintro ⟨i, hi, hact, hobs⟩
    refine ⟨events.take i, events.get ⟨i, hi⟩, events.drop (i + 1), ?_, hact, ?_⟩
    · have hcd : events.get ⟨i, hi⟩ :: events.drop (i + 1) = events.drop i := by
        simp [List.getElem_cons_drop events i hi]
      rw [hcd, List.take_append_drop]
    · intro e he
      rcases List.mem_iff_getElem.mp he with ⟨k, hk, hek⟩
      have hk2 : i + 1 + k < events.length := by
        have := hk; simp at this; omega
      have hge : (events.drop (i + 1))[k] = events[i + 1 + k] := by
        rw [List.getElem_drop]
      rw [hge] at hek
      subst hek
      exact hobs (i + 1 + k) (by omega) hk2

/-- The scenario sequence of the claim:
SystemPromptEvent, MessageEvent, ActionEvent(id=a1),
ObservationEvent(cause=a1), ActionEvent(id=a2). -/
def demoEvents : List Event :=
  [ .systemPrompt 0 "e0" "sys",
    .message 1 "e1" "hi",
    .action 2 "a1" "bash" "ls",
    .observation 3 "e3" "a1" "ok",
    .action 4 "a2" "bash" "pwd" ]

/-- C2: `find_unmatched_actions` returns exactly the ids of ActionEvents
with no ObservationEvent referencing that id at a strictly later position in
the sequence (matching is forward-only), and on the scenario sequence
SystemPromptEvent, MessageEvent, ActionEvent(id=a1), ObservationEvent(cause=a1),
ActionEvent(id=a2) the result is exactly {a2}. -/
theorem findUnmatchedActions_spec :
    (∀ (events : List Event) (a : String),
        a ∈ findUnmatchedActions events ↔ UnmatchedAt events a) ∧
      findUnmatchedActions demoEvents = ["a2"] := by
  constructor
  · intro events a
    rw [mem_findUnmatchedActions_iff_decomp, unmatchedDecomp_iff_at]
  · rfl

/-- A JSON value.  `json.loads` / `json.load` from the Python standard
library are treated as an external parser producing either a value of this
type or a parse failure (`none`). -/
inductive JsonVal where
  | null
  | bool (b : Bool)
  | num (q : ℚ)
  | str (s : String)
  | arr (items : List JsonVal)
  | obj (fields : List (String × JsonVal))

/-- One record produced by `benchmark_utils.read_event_files`:
`{"filename": ..., "json_str": ..., "size_bytes": ..., "kind": ...}`. -/
structure EventFileRec where
  filename : FName
  json_str : String
  size_bytes : Nat
  kind : JsonVal

/-- `json.loads(content).get("kind", "unknown")` guarded by
`try ... except Exception: kind = "unknown"` in `read_event_files`:
a parse failure, a non-object top-level value (whose `.get` raises
`AttributeError`), and an absent `"kind"` field all yield `"unknown"`. -/
def kindOf (jparse : String → Option JsonVal) (content : String) : JsonVal :=
  match jparse content with
  | some (.obj fields) => (fields.lookup "kind").getD (.str "unknown")
  | _ => .str "unknown"

/-- `benchmark_utils.read_event_files`: list the directory, keep names ending
in `.json`, sort them, and build one record per file with the raw content,
its UTF-8 byte length (`len(content.encode("utf-8"))`), and the extracted
kind.  The directory is modelled as an association list of
(filename, content); `os.listdir` yields the filenames in arbitrary order. -/
def read_event_files (jparse : String → Option JsonVal)
    (dir : List (FName × String)) : List EventFileRec :=
  let files := pySorted ((dir.map Prod.fst).filter endsJson)
  files.map (fun f =>
    let content := (dir.lookup f).getD ""
    { filename := f
      json_str := content
      size_bytes := content.utf8ByteSize
      kind := kindOf jparse content })

/-- C9: For every directory and every behavior of the JSON parser,
`read_event_files` returns exactly one record per file whose name ends in
`.json`, in ascending lexicographic filename order; each record's
`size_bytes` is the UTF-8 byte length of its content and its `kind` is the
top-level `"kind"` field of the parsed JSON object, or the string
`"unknown"` when parsing fails, the value is not an object, or the field is
absent — in particular the function is total and never propagates a JSON
parse error. -/
theorem read_event_files_spec (jparse : String → Option JsonVal)
    (dir : List (FName × String)) :
    ((read_event_files jparse dir).map EventFileRec.filename).Perm
        ((dir.map Prod.fst).filter endsJson) ∧
      List.Sorted (· ≤ ·)
        ((read_event_files jparse dir).map EventFileRec.filename) ∧
      ∀ r ∈ read_event_files jparse dir,
        r.size_bytes = r.json_str.utf8ByteSize ∧
          r.kind = (match jparse r.json_str with
            | some (.obj fields) => (fields.lookup "kind").getD (.str "unknown")
            | some .null => .str "unknown"
            | some (.bool _) => .str "unknown"
            | some (.num _) => .str "unknown"
            | some (.str _) => .str "unknown"
            | some (.arr _) => .str "unknown"
            | none => .str "unknown") := by
  have hmap : (read_event_files jparse dir).map EventFileRec.filename =
      pySorted ((dir.map Prod.fst).filter endsJson) := by
    simp only [read_event_files, List.map_map]
    exact List.map_id'' (fun _ => rfl) _
  refine ⟨?_, ?_, ?_⟩
  · rw [hmap]; exact pySorted_perm _
  · rw [hmap]; exact pySorted_sorted _
  · intro r hr
    rcases List.mem_map.mp hr with ⟨f, -, rfl⟩
    refine ⟨rfl, ?_⟩
    show kindOf jparse _ = _
    unfold kindOf
    rcases jparse ((dir.lookup f).getD "") with - | v
    · rfl
    · cases v <;> rfl

/-- Witness for C9: on a concrete two-file directory with a parser that fails
on everything, the per-record clause instantiates to a concrete record whose
kind is `"unknown"` and whose size is the byte length of its content. -/
theorem read_event_files_spec_witness :
    ({ filename := "a.json".data, json_str := "xy",
       size_bytes := 2, kind := .str "unknown" } : EventFileRec).size_bytes =
        ("xy" : String).utf8ByteSize ∧
      ({ filename := "a.json".data, json_str := "xy",
         size_bytes := 2, kind := .str "unknown" } : EventFileRec).kind =
        (match (fun _ => none : String → Option JsonVal) "xy" with
          | some (.obj fields) => (fields.lookup "kind").getD (.str "unknown")
          | some .null => .str "unknown"
          | some (.bool _) => .str "unknown"
          | some (.num _) => .str "unknown"
          | some (.str _) => .str "unknown"
          | some (.arr _) => .str "unknown"
          | none => JsonVal.str "unknown") :=
  (read_event_files_spec (fun _ => none)
      [("b.txt".data, "zzz"), ("a.json".data, "xy")]).2.2
    _ (List.mem_cons_self _ _)

/-- One entry of the `MODELS` dictionary in
`.github/run-eval/resolve_model_config.py`: an id, a display name, and the
`llm_config` dictionary (JSON-like values). -/
structure ModelConfig where
  id : String
  display_name : String
  llm_config : List (String × JsonVal)

/-- The `MODELS` model-configuration dictionary of
`resolve_model_config.py`, transcribed entry for entry. -/
def MODELS : List (String × ModelConfig) :=
  [ ("claude-sonnet-4-5-20250929",
     { id := "claude-sonnet-4-5-20250929", display_name := "Claude Sonnet 4.5",
       llm_config := [("model", .str "litellm_proxy/claude-sonnet-4-5-20250929"),
                      ("temperature", .num 0)] }),
    ("kimi-k2-thinking",
     { id := "kimi-k2-thinking", display_name := "Kimi K2 Thinking",
       llm_config := [("model", .str "litellm_proxy/moonshot/kimi-k2-thinking")] }),
    ("kimi-k2.5",
     { id := "kimi-k2.5", display_name := "Kimi K2.5",
       llm_config := [("model", .str "litellm_proxy/moonshot/kimi-k2.5"),
                      ("temperature", .num 1), ("top_p", .num 0.95)] }),
    ("qwen3-max-thinking",
     { id := "qwen3-max-thinking", display_name := "Qwen3 Max Thinking",
       llm_config := [("model", .str "litellm_proxy/dashscope/qwen3-max-2026-01-23"),
                      ("litellm_extra_body", .obj [("enable_thinking", .bool true)])] }),
    ("claude-4.5-opus",
     { id := "claude-4.5-opus", display_name := "Claude 4.5 Opus",
       llm_config := [("model", .str "litellm_proxy/anthropic/claude-opus-4-5-20251101"),
                      ("temperature", .num 0)] }),
    ("claude-4.6-opus",
     { id := "claude-4.6-opus", display_name := "Claude 4.6 Opus",
       llm_config := [("model", .str "litellm_proxy/anthropic/claude-opus-4-6"),
                      ("temperature", .num 0)] }),
    ("claude-sonnet-4-6",
     { id := "claude-sonnet-4-6", display_name := "Claude Sonnet 4.6",
       llm_config := [("model", .str "litellm_proxy/anthropic/claude-sonnet-4-6"),
                      ("temperature", .num 0)] }),
    ("gemini-3-pro",
     { id := "gemini-3-pro", display_name := "Gemini 3 Pro",
       llm_config := [("model", .str "litellm_proxy/gemini-3-pro-preview")] }),
    ("gemini-3-flash",
     { id := "gemini-3-flash", display_name := "Gemini 3 Flash",
       llm_config := [("model", .str "litellm_proxy/gemini-3-flash-preview")] }),
    ("gemini-3.1-pro",
     { id := "gemini-3.1-pro", display_name := "Gemini 3.1 Pro",
       llm_config := [("model", .str "litellm_proxy/gemini-3.1-pro-preview")] }),
    ("gpt-5.2",
     { id := "gpt-5.2", display_name := "GPT-5.2",
       llm_config := [("model", .str "litellm_proxy/openai/gpt-5.2-2025-12-11")] }),
    ("gpt-5.2-codex",
     { id := "gpt-5.2-codex", display_name := "GPT-5.2 Codex",
       llm_config := [("model", .str "litellm_proxy/gpt-5.2-codex")] }),
    ("gpt-5.2-high-reasoning",
     { id := "gpt-5.2-high-reasoning", display_name := "GPT-5.2 High Reasoning",
       llm_config := [("model", .str "litellm_proxy/openai/gpt-5.2-2025-12-11"),
                      ("reasoning_effort", .str "high")] }),
    ("minimax-m2",
     { id := "minimax-m2", display_name := "MiniMax M2",
       llm_config := [("model", .str "litellm_proxy/minimax/minimax-m2")] }),
    ("minimax-m2.5",
     { id := "minimax-m2.5", display_name := "MiniMax M2.5",
       llm_config := [("model", .str "litellm_proxy/minimax/MiniMax-M2.5"),
                      ("temperature", .num 1), ("top_p", .num 0.95)] }),
    ("minimax-m2.1",
     { id := "minimax-m2.1", display_name := "MiniMax M2.1",
       llm_config := [("model", .str "litellm_proxy/minimax/MiniMax-M2.1")] }),
    ("deepseek-v3.2-reasoner",
     { id := "deepseek-v3.2-reasoner", display_name := "DeepSeek V3.2 Reasoner",
       llm_config := [("model", .str "litellm_proxy/deepseek/deepseek-reasoner")] }),
    ("qwen-3-coder",
     { id := "qwen-3-coder", display_name := "Qwen 3 Coder",
       llm_config := [("model", .str "litellm_proxy/fireworks_ai/qwen3-coder-480b-a35b-instruct")] }),
    ("nemotron-3-nano-30b",
     { id := "nemotron-3-nano-30b", display_name := "NVIDIA Nemotron 3 Nano 30B",
       llm_config := [("model", .str "litellm_proxy/openai/NVIDIA-Nemotron-3-Nano-30B-A3B-FP8"),
                      ("temperature", .num 0)] }),
    ("glm-4.7",
     { id := "glm-4.7", display_name := "GLM-4.7",
       llm_config := [("model", .str "litellm_proxy/openrouter/z-ai/glm-4.7"),
                      ("disable_vision", .bool true)] }),
    ("glm-5",
     { id := "glm-5", display_name := "GLM-5",
       llm_config := [("model", .str "litellm_proxy/openrouter/z-ai/glm-5"),
                      ("disable_vision", .bool true)] }),
    ("qwen3-coder-next",
     { id := "qwen3-coder-next", display_name := "Qwen3 Coder Next",
       llm_config := [("model", .str "litellm_proxy/openrouter/qwen/qwen3-coder-next")] }),
    ("qwen3-coder-30b-a3b-instruct",
     { id := "qwen3-coder-30b-a3b-instruct", display_name := "Qwen3 Coder 30B A3B Instruct",
       llm_config := [("model", .str "litellm_proxy/Qwen3-Coder-30B-A3B-Instruct")] }),
    ("gpt-oss-20b",
     { id := "gpt-oss-20b", display_name := "GPT OSS 20B",
       llm_config := [("model", .str "litellm_proxy/gpt-oss-20b")] }) ]

/-- `find_models_by_id` from `resolve_model_config.py`: resolve each id in
order, exiting the process with code 1 (`error_exit`) at the first id not
present in `MODELS`. -/
def find_models_by_id : List String → Except Nat (List ModelConfig)
  | [] => .ok []
  | mid :: rest =>
    match MODELS.lookup mid with
    | none => .error 1
    | some m => (find_models_by_id rest).map (fun l => m :: l)

/-- Python `str.split(",")`: cut the character list at every comma. -/
def sepSplit (cs : List Char) : List (List Char) :=
  match cs with
  | [] => [[]]
  | c :: rest =>
    let r := sepSplit rest
    if c = ',' then [] :: r
    else
      match r with
      | [] => [[c]]
      | g :: gs => (c :: g) :: gs

/-- The whitespace characters Python `str.strip()` removes (ASCII). -/
def isSpaceChar (c : Char) : Bool :=
  c = ' ' || c = '\t' || c = '\n' || c = '\r' || c = '\x0b' || c = '\x0c'

/-- Python `str.strip()`: drop whitespace from both ends. -/
def pyStrip (cs : List Char) : List Char :=
  ((cs.dropWhile isSpaceChar).reverse.dropWhile isSpaceChar).reverse

/-- The id parsing of `main`:
`[mid.strip() for mid in model_ids_str.split(",") if mid.strip()]`. -/
def parseModelIds (s : String) : List String :=
  ((((sepSplit s.data).map pyStrip).filter (fun cs => cs ≠ [])).map
    (fun cs => String.mk cs))

/-- The output-producing behavior of `main` in `resolve_model_config.py`:
requires `MODEL_IDS` and `GITHUB_OUTPUT` to be set and non-empty
(`get_required_env`), resolves the parsed ids, runs the preflight check
(whose outcome depends on the environment and network, here a parameter),
and only then appends the `models_json` line to `GITHUB_OUTPUT`; `none`
means the process exited without writing. -/
def mainOutput (modelIdsEnv : Option String) (githubOutputEnv : Option String)
    (preflightOk : Bool) : Option (List ModelConfig) :=
  match modelIdsEnv with
  | none => none
  | some s =>
    if s = "" then none
    else
      match githubOutputEnv with
      | none => none
      | some g =>
        if g = "" then none
        else
          match find_models_by_id (parseModelIds s) with
          | .error _ => none
          | .ok resolved => if preflightOk then some resolved else none

/-- C10: `find_models_by_id` returns the configurations corresponding to
the requested ids, in the requested order, when every id is a key of
`MODELS`; it terminates the process with exit code 1 as soon as some id is
not a key; and `main` therefore never writes a `models_json` line to
`GITHUB_OUTPUT` for a partially resolved list. -/
theorem find_models_by_id_spec :
    (∀ ids : List String, (∀ mid ∈ ids, (MODELS.lookup mid).isSome) →
        find_models_by_id ids =
          .ok (ids.filterMap (fun mid => MODELS.lookup mid))) ∧
      (∀ ids : List String, (∃ mid ∈ ids, MODELS.lookup mid = none) →
          find_models_by_id ids = .error 1) ∧
      (∀ (s g : String) (pf : Bool),
          (∃ mid ∈ parseModelIds s, MODELS.lookup mid = none) →
            mainOutput (some s) (some g) pf = none) := by
  have hok : ∀ ids : List String, (∀ mid ∈ ids, (MODELS.lookup mid).isSome) →
      find_models_by_id ids = .ok (ids.filterMap (fun mid => MODELS.lookup mid)) := by
    intro ids h
    induction ids with
    | nil => rfl
    | cons mid rest ih =>
      have hm := h mid (List.mem_cons_self _ _)
      rcases Option.isSome_iff_exists.mp hm with ⟨m, hmm⟩
      simp only [find_models_by_id, hmm, List.filterMap_cons, Except.map,
        ih (fun x hx => h x (List.mem_cons_of_mem _ hx))]
  have herr : ∀ ids : List String, (∃ mid ∈ ids, MODELS.lookup mid = none) →
      find_models_by_id ids = .error 1 := by
    intro ids h
    induction ids with
    | nil => rcases h with ⟨mid, hmem, -⟩; cases hmem
    | cons mid rest ih =>
      rcases h with ⟨x, hx, hnone⟩
      rcases List.mem_cons.mp hx with rfl | hx'
      · simp [find_models_by_id, hnone]
      · cases hl : MODELS.lookup mid with
        | none => simp [find_models_by_id, hl]
        | some m => simp [find_models_by_id, hl, ih ⟨x, hx', hnone⟩, Except.map]
  refine ⟨hok, herr, ?_⟩
  intro s g pf h
  unfold mainOutput
  by_cases hs : s = ""
  · simp [hs]
  · by_cases hg : g = ""
    · simp [hs, hg]
    · simp [hs, hg, herr _ h]

/-- Witness for C10: resolving a present id yields its configuration, and a
request containing a missing id exits with code 1 and writes nothing. -/
theorem find_models_by_id_spec_witness :
    find_models_by_id ["kimi-k2-thinking"] =
        .ok (["kimi-k2-thinking"].filterMap (fun mid => MODELS.lookup mid)) ∧
      find_models_by_id ["kimi-k2-thinking", "no-such-model"] = .error 1 ∧
      mainOutput (some "kimi-k2-thinking, no-such-model") (some "out.txt") true = none :=
  ⟨find_models_by_id_spec.1 ["kimi-k2-thinking"] (by decide),
    find_models_by_id_spec.2.1 ["kimi-k2-thinking", "no-such-model"]
      ⟨"no-such-model", by decide, rfl⟩,
    find_models_by_id_spec.2.2 "kimi-k2-thinking, no-such-model" "out.txt" true
      ⟨"no-such-model", by decide, rfl⟩⟩

theorem stripLit_append (p r : List Char) : stripLit p (p ++ r) = some r := by
  induction p with
  | nil => rfl
  | cons c cs ih => simp [stripLit, ih]

theorem takeWhile_all_append {p : Char → Bool} {l : List Char} (c : Char)
    (r : List Char) (hl : ∀ x ∈ l, p x = true) (hc : p c = false) :
    (l ++ c :: r).takeWhile p = l ∧ (l ++ c :: r).dropWhile p = c :: r := by
  induction l with
  | nil => simp [List.takeWhile_cons, List.dropWhile_cons, hc]
  | cons a as ih =>
    have ha := hl a (by simp)
    have ih2 := ih (fun x hx => hl x (by simp [hx]))
    simp [List.takeWhile_cons, List.dropWhile_cons, ha, ih2.1, ih2.2]

/-- The decimal digit string of a natural number (Python `str(n)` for the
index component of the filename). -/
def natDigits (n : Nat) : List Char :=
  if n = 0 then ['0'] else ((Nat.digits 10 n).map Nat.digitChar).reverse

theorem digitVal_digitChar {d : Nat} (h : d < 10) :
    digitVal (Nat.digitChar d) = d := by
  interval_cases d <;> rfl

theorem isDigit_digitChar {d : Nat} (h : d < 10) :
    (Nat.digitChar d).isDigit = true := by
  interval_cases d <;> rfl

theorem foldl_digit_chars (ds : List Nat) (h : ∀ d ∈ ds, d < 10) :
    ((ds.map Nat.digitChar).reverse).foldl (fun a c => 10 * a + digitVal c) 0 =
      Nat.ofDigits 10 ds := by
  induction ds with
  | nil => simp [Nat.ofDigits]
  | cons d rest ih =>
    have hd := h d (by simp)
    have hr := ih (fun x hx => h x (by simp [hx]))
    simp only [List.map_cons, List.reverse_cons, List.foldl_append,
      List.foldl_cons, List.foldl_nil]
    rw [hr, digitVal_digitChar hd, Nat.ofDigits_cons]
    ring

theorem pyInt_natDigits (n : Nat) : pyInt (natDigits n) = n := by
  by_cases h : n = 0
  · subst h; rfl
  · show (natDigits n).foldl _ 0 = n
    unfold natDigits
    rw [if_neg h,
      foldl_digit_chars _ (fun d hd => Nat.digits_lt_base (by norm_num) hd)]
    exact_mod_cast Nat.ofDigits_digits 10 n

theorem natDigits_all_digit (n : Nat) :
    ∀ c ∈ natDigits n, c.isDigit = true := by
  intro c hc
  unfold natDigits at hc
  by_cases h : n = 0
  · rw [if_pos h] at hc
    simp at hc
    subst hc; rfl
  · rw [if_neg h] at hc
    rcases List.mem_map.mp (List.mem_reverse.mp hc) with ⟨d, hd, rfl⟩
    exact isDigit_digitChar (Nat.digits_lt_base (by norm_num) hd)

theorem natDigits_ne_nil (n : Nat) : natDigits n ≠ [] := by
  unfold natDigits
  by_cases h : n = 0
  · simp [h]
  · rw [if_neg h]
    simp [Nat.digits_ne_nil_iff_ne_zero.mpr h]

/-- Modelled from the spec: the on-disk filename of an event,
`event-<index>-<id>.json` (the EventLog that writes these files is not in
the repository; the encoding is the one the benchmark regex expects). -/
def mkEventFilename (n : Nat) (id : List Char) : FName :=
  "event-".data ++ (natDigits n ++ '-' :: (id ++ ".json".data))

/-- A well-formed event id: non-empty and within the `[a-f0-9\-]` class the
filename regex accepts (e.g. a UUID). -/
def ValidId (id : List Char) : Prop :=
  id ≠ [] ∧ ∀ c ∈ id, isIdChar c = true

instance (id : List Char) : Decidable (ValidId id) := by
  unfold ValidId; infer_instance

theorem matchEventName_mk (n : Nat) (id : List Char) (h : ValidId id) :
    matchEventName (mkEventFilename n id) = some n := by
  have edot : (".json".data : List Char) = '.' :: "json".data := rfl
  have hds := takeWhile_all_append (p := Char.isDigit) '-'
    (id ++ ".json".data) (natDigits_all_digit n) (by rfl)
  have hid := takeWhile_all_append (p := isIdChar) '.' "json".data h.2 (by rfl)
  rw [edot] at hds
  unfold matchEventName mkEventFilename
  rw [stripLit_append, edot]
  simp only [hds.1, hds.2]
  rw [List.isEmpty_eq_false.mpr (natDigits_ne_nil n)]
  simp only [Bool.false_eq_true, if_false]
  simp only [hid.1, hid.2]
  rw [List.isEmpty_eq_false.mpr h.1]
  simp only [Bool.false_eq_true, if_false, ← edot]
  simp [pyInt_natDigits]

theorem endsJson_mk (n : Nat) (id : List Char) :
    endsJson (mkEventFilename n id) = true := by
  unfold endsJson mkEventFilename
  rw [List.isSuffixOf_iff_suffix]
  refine ⟨"event-".data ++ (natDigits n ++ '-' :: id), ?_⟩
  simp

/-- The event indices parsed from a set of files. -/
def filesIndices (files : List FName) : List Nat :=
  files.filterMap matchEventName

/-- Modelled from the spec: `EventLog.append` re-derives the next index from
the on-disk state under the log-level lock — it reads the current maximum
parsed index and allocates its successor (0 for an empty log). -/
def nextIndex (files : List FName) : Nat :=
  let ns := filesIndices files
  if ns.isEmpty then 0 else ns.foldl max 0 + 1

/-- Modelled from the spec: one successful `EventLog.append` performed as
lock-acquire, write of `event-<index>-<id>.json`, lock-release on the
log-level lock key (the benchmark replays this path as
`with fs.lock(LOCK_FILE, timeout=30.0): fs.write(target_path, ...)`). -/
def appendEvent (files : List FName) (id : List Char) : List FName :=
  files ++ [mkEventFilename (nextIndex files) id]

/-- A sequence of successful appends against one log. -/
def appendAll (files : List FName) (ids : List (List Char)) : List FName :=
  ids.foldl appendEvent files

/-- The intended directory content after appending `ids` starting at
index `k`. -/
def logFiles : List (List Char) → Nat → List FName
  | [], _ => []
  | id :: rest, k => mkEventFilename k id :: logFiles rest (k + 1)

theorem filesIndices_logFiles (ids : List (List Char)) (k : Nat)
    (h : ∀ id ∈ ids, ValidId id) :
    filesIndices (logFiles ids k) = List.range' k ids.length := by
  induction ids generalizing k with
  | nil => rfl
  | cons id rest ih =>
    have hv := h id (by simp)
    show List.filterMap matchEventName (mkEventFilename k id :: logFiles rest (k + 1)) = _
    rw [List.filterMap_cons]
    simp only [matchEventName_mk k id hv]
    have ih2 := ih (k + 1) (fun x hx => h x (by simp [hx]))
    unfold filesIndices at ih2
    rw [ih2]
    simp [List.range'_succ]

theorem foldl_max_range (n : Nat) :
    (List.range (n + 1)).foldl max 0 = n := by
  induction n with
  | zero => rfl
  | succ m ih =>
    rw [List.range_succ, List.foldl_append, ih]
    simp [Nat.max_eq_right (Nat.le_succ m)]

theorem nextIndex_logFiles (ids : List (List Char))
    (h : ∀ id ∈ ids, ValidId id) :
    nextIndex (logFiles ids 0) = ids.length := by
  unfold nextIndex
  rw [filesIndices_logFiles ids 0 h, ← List.range_eq_range']
  cases hn : ids.length with
  | zero => rfl
  | succ m =>
    show (if (List.range (m + 1)).isEmpty = true then 0
        else (List.range (m + 1)).foldl max 0 + 1) = m + 1
    have he : (List.range (m + 1)).isEmpty = false := by
      rw [List.isEmpty_eq_false]
      simp [List.range_succ]
    rw [he]
    simp [foldl_max_range m]

theorem logFiles_concat (ids : List (List Char)) (id : List Char) (k : Nat) :
    logFiles (ids ++ [id]) k =
      logFiles ids k ++ [mkEventFilename (k + ids.length) id] := by
  induction ids generalizing k with
  | nil => simp [logFiles]
  | cons x rest ih =>
    show mkEventFilename k x :: logFiles (rest ++ [id]) (k + 1) = _
    rw [ih (k + 1), show k + 1 + rest.length = k + (x :: rest).length by
      simp; omega]
    simp [logFiles]

theorem appendAll_logFiles (ids done : List (List Char))
    (hdone : ∀ id ∈ done, ValidId id) (hids : ∀ id ∈ ids, ValidId id) :
    appendAll (logFiles done 0) ids = logFiles (done ++ ids) 0 := by
  induction ids generalizing done with
  | nil => simp [appendAll]
  | cons id rest ih =>
    have hv := hids id (by simp)
    show appendAll (appendEvent (logFiles done 0) id) rest = _
    rw [show appendEvent (logFiles done 0) id = logFiles (done ++ [id]) 0 by
      unfold appendEvent
      rw [nextIndex_logFiles done hdone, logFiles_concat]
      simp]
    rw [ih (done ++ [id])
      (by intro x hx
          rcases List.mem_append.mp hx with hx | hx
          · exact hdone x hx
          · rw [List.mem_singleton.mp hx]; exact hv)
      (fun x hx => hids x (by simp [hx]))]
    simp

theorem appendAll_eq_logFiles (ids : List (List Char))
    (h : ∀ id ∈ ids, ValidId id) :
    appendAll [] ids = logFiles ids 0 := by
  have := appendAll_logFiles ids [] (by simp) h
  simpa using this

theorem rebuild_fold_keys (l : List FName) (idx : List (Nat × FName))
    (hall : ∀ f ∈ l, (matchEventName f).isSome = true)
    (hnodup : (l.filterMap matchEventName).Nodup)
    (hdis : ∀ n ∈ l.filterMap matchEventName, n ∉ idx.map Prod.fst) :
    (l.foldl (fun idx fname =>
        match matchEventName fname with
        | some n => dictInsert idx n fname
        | none => idx) idx).map Prod.fst =
      idx.map Prod.fst ++ l.filterMap matchEventName := by
  induction l generalizing idx with
  | nil => simp
  | cons f rest ih =>
    rcases Option.isSome_iff_exists.mp (hall f (by simp)) with ⟨n, hn⟩
    have hfm : List.filterMap matchEventName (f :: rest) =
        n :: rest.filterMap matchEventName := by
      rw [List.filterMap_cons]; simp [hn]
    rw [hfm] at hnodup hdis ⊢
    have hfresh : idx.any (fun p => p.1 = n) = false := by
      rw [List.any_eq_false]
      intro p hp
      simp only [decide_eq_true_eq]
      intro hpn
      exact hdis n (by simp) (by rw [← hpn]; exact List.mem_map_of_mem Prod.fst hp)
    have hins : dictInsert idx n f = idx ++ [(n, f)] := by
      unfold dictInsert
      rw [hfresh]
      simp
    simp only [List.foldl_cons, hn, hins]
    rw [ih (idx ++ [(n, f)]) (fun x hx => hall x (by simp [hx]))
      (List.Nodup.of_cons hnodup)
      (by
        intro m hm
        simp only [List.map_append, List.mem_append, List.map_cons,
          List.map_nil, List.mem_singleton, not_or]
        refine ⟨hdis m (by simp [hm]), ?_⟩
        intro hmn
        exact (List.nodup_cons.mp hnodup).1 (hmn ▸ hm))]
    simp

theorem mem_logFiles {ids : List (List Char)} {k : Nat} {f : FName}
    (hf : f ∈ logFiles ids k) :
    ∃ i id, id ∈ ids ∧ f = mkEventFilename i id := by
  induction ids generalizing k with
  | nil => cases hf
  | cons id rest ih =>
    rcases List.mem_cons.mp hf with rfl | hf'
    · exact ⟨k, id, by simp, rfl⟩
    · rcases ih hf' with ⟨i, id', hmem, rfl⟩
      exact ⟨i, id', by simp [hmem], rfl⟩

/-- C1: For every sequence of N successful appends on a single, initially
empty event log (each append performed as lock-acquire, write of the event
file, lock-release on the log-level lock key, with the next index re-derived
from the directory state), rebuilding the index over the resulting directory
yields a mapping with exactly N entries whose indices are exactly 0..N-1 —
no gaps and no duplicate indices. -/
theorem append_rebuild_index_contiguous (ids : List (List Char))
    (h : ∀ id ∈ ids, ValidId id) :
    (rebuildIndex (appendAll [] ids)).length = ids.length ∧
      ((rebuildIndex (appendAll [] ids)).map Prod.fst).Perm
        (List.range ids.length) := by
  rw [appendAll_eq_logFiles ids h]
  have hLidx : (logFiles ids 0).filterMap matchEventName =
      List.range ids.length := by
    have hfi := filesIndices_logFiles ids 0 h
    unfold filesIndices at hfi
    rw [hfi, List.range_eq_range']
  have hmemL : ∀ f ∈ pySorted (logFiles ids 0),
      ∃ i id, id ∈ ids ∧ f = mkEventFilename i id :=
    fun f hf => mem_logFiles ((pySorted_perm _).mem_iff.mp hf)
  have hfilter : (pySorted (logFiles ids 0)).filter endsJson =
      pySorted (logFiles ids 0) := by
    rw [List.filter_eq_self]
    intro f hf
    rcases hmemL f hf with ⟨i, id, -, rfl⟩
    exact endsJson_mk i id
  have hpermFM : ((pySorted (logFiles ids 0)).filterMap matchEventName).Perm
      (List.range ids.length) := by
    rw [← hLidx]
    exact List.Perm.filterMap _ (pySorted_perm _)
  have hall : ∀ f ∈ pySorted (logFiles ids 0),
      (matchEventName f).isSome = true := by
    intro f hf
    rcases hmemL f hf with ⟨i, id, hid, rfl⟩
    rw [matchEventName_mk i id (h id hid)]
    rfl
  have hkeys : (rebuildIndex (logFiles ids 0)).map Prod.fst =
      (pySorted (logFiles ids 0)).filterMap matchEventName := by
    show ((((pySorted (logFiles ids 0)).filter endsJson).foldl _ []).map
      Prod.fst) = _
    rw [hfilter, rebuild_fold_keys _ [] hall
      (hpermFM.nodup_iff.mpr (List.nodup_range _)) (by simp)]
    simp
  constructor
  · have hlen : (rebuildIndex (logFiles ids 0)).length =
        ((rebuildIndex (logFiles ids 0)).map Prod.fst).length := by simp
    rw [hlen, hkeys, hpermFM.length_eq, List.length_range]
  · rw [hkeys]
    exact hpermFM

/-- Witness for C1: appending two events with concrete well-formed ids yields
a rebuilt index with entries exactly at indices 0 and 1. -/
theorem append_rebuild_index_contiguous_witness :
    (rebuildIndex (appendAll [] ["ab".data, "3f-0".data])).length = 2 ∧
      ((rebuildIndex (appendAll [] ["ab".data, "3f-0".data])).map
        Prod.fst).Perm (List.range 2) :=
  append_rebuild_index_contiguous ["ab".data, "3f-0".data] (by decide)

instance : DecidableRel (fun (a b : Nat × FName) => a.1 ≤ b.1) :=
  fun a b => Nat.decLe a.1 b.1

instance : IsTotal (Nat × FName) (fun a b => a.1 ≤ b.1) :=
  ⟨fun a b => Nat.le_total a.1 b.1⟩

instance : IsTrans (Nat × FName) (fun a b => a.1 ≤ b.1) :=
  ⟨fun _ _ _ => Nat.le_trans⟩

/-- Modelled from the spec: the Replayer visits the mapping entries in
ascending numeric index order. -/
def sortByIndex (m : List (Nat × FName)) : List (Nat × FName) :=
  List.insertionSort (fun a b => a.1 ≤ b.1) m

/-- Modelled from the spec: the body of `Replayer.replay` — read and decode
each indexed file; a failed decode (structurally invalid payload) aborts with
`CorruptEvent` carrying the offending filename, unless the caller explicitly
requested skip-on-error. -/
def replayFrom (skip : Bool) (read : FName → Option String)
    (decode : String → Option Event) :
    List (Nat × FName) → Except FName (List (Nat × Event))
  | [] => .ok []
  | (n, f) :: rest =>
    match (read f).bind decode with
    | some e => (replayFrom skip read decode rest).map (fun es => (n, e) :: es)
    | none => if skip then replayFrom skip read decode rest else .error f

/-- Modelled from the spec: `Replayer.replay` over an index→filename mapping
(the Replayer is not in the repository; only its benchmark caller is). -/
def replay (skip : Bool) (read : FName → Option String)
    (decode : String → Option Event) (m : List (Nat × FName)) :
    Except FName (List (Nat × Event)) :=
  replayFrom skip read decode (sortByIndex m)

theorem replayFrom_ok {read : FName → Option String}
    {decode : String → Option Event} {l : List (Nat × FName)}
    {evs : List (Nat × Event)}
    (h : replayFrom false read decode l = .ok evs) :
    evs.map Prod.fst = l.map Prod.fst ∧
      ∀ p ∈ evs, ∃ f, (p.1, f) ∈ l ∧ (read f).bind decode = some p.2 := by
  induction l generalizing evs with
  | nil =>
    cases h
    simp
  | cons hd rest ih =>
    obtain ⟨n, f⟩ := hd
    cases hdec : (read f).bind decode with
    | none => rw [replayFrom, hdec] at h; cases h
    | some e =>
      rw [replayFrom, hdec] at h
      cases hrest : replayFrom false read decode rest with
      | error g => rw [hrest] at h; cases h
      | ok es =>
        rw [hrest] at h
        cases h
        rcases ih hrest with ⟨hmap, hmem⟩
        refine ⟨by simp [hmap], ?_⟩
        intro p hp
        rcases List.mem_cons.mp hp with rfl | hp'
        · exact ⟨f, by simp, hdec⟩
        · rcases hmem p hp' with ⟨g, hg, hgd⟩
          exact ⟨g, by simp [hg], hgd⟩

/-- C3: For every index-to-filename mapping, a successful replay produces
the events in exactly ascending numeric index order as given by the mapping:
the produced indices are sorted ascending, they are a permutation of the
mapping's indices (nothing is filtered out and no other sort key is used),
the lengths agree, and each produced event is the decode of the file the
mapping assigns to its index. -/
theorem replay_order_spec (read : FName → Option String)
    (decode : String → Option Event) (m : List (Nat × FName))
    (evs : List (Nat × Event))
    (h : replay false read decode m = .ok evs) :
    List.Sorted (· ≤ ·) (evs.map Prod.fst) ∧
      (evs.map Prod.fst).Perm (m.map Prod.fst) ∧
      evs.length = m.length ∧
      ∀ p ∈ evs, ∃ f, (p.1, f) ∈ m ∧ (read f).bind decode = some p.2 := by
  rcases replayFrom_ok h with ⟨hmap, hmem⟩
  have hsortPair : List.Sorted (fun a b => a.1 ≤ b.1) (sortByIndex m) :=
    List.sorted_insertionSort _ m
  have hperm : (sortByIndex m).Perm m := List.perm_insertionSort _ m
  refine ⟨?_, ?_, ?_, ?_⟩
  · rw [hmap]
    exact (List.pairwise_map).mpr hsortPair
  · rw [hmap]
    exact hperm.map Prod.fst
  · have := congrArg List.length hmap
    simpa [hperm.length_eq] using this
  · intro p hp
    rcases hmem p hp with ⟨f, hf, hfd⟩
    exact ⟨f, hperm.mem_iff.mp hf, hfd⟩

/-- Witness for C3: a concrete two-entry mapping given in descending index
order replays into ascending index order with both entries present. -/
theorem replay_order_spec_witness :
    List.Sorted (· ≤ ·)
        ((([((0 : Nat), Event.message 0 "e" "a"), (1, Event.message 0 "e" "b")] :
            List (Nat × Event)).map Prod.fst)) ∧
      ((([((0 : Nat), Event.message 0 "e" "a"), (1, Event.message 0 "e" "b")] :
          List (Nat × Event)).map Prod.fst)).Perm
        (([((1 : Nat), "b".data), (0, "a".data)] :
          List (Nat × FName)).map Prod.fst) ∧
      ([((0 : Nat), Event.message 0 "e" "a"), (1, Event.message 0 "e" "b")] :
          List (Nat × Event)).length =
        ([((1 : Nat), "b".data), (0, "a".data)] : List (Nat × FName)).length ∧
      ∀ p ∈ ([((0 : Nat), Event.message 0 "e" "a"),
          (1, Event.message 0 "e" "b")] : List (Nat × Event)),
        ∃ f, (p.1, f) ∈ ([((1 : Nat), "b".data), (0, "a".data)] :
            List (Nat × FName)) ∧
          ((fun f => some (String.mk f)) f).bind
            (fun s => some (Event.message 0 "e" s)) = some p.2 :=
  replay_order_spec (fun f => some (String.mk f))
    (fun s => some (Event.message 0 "e" s))
    [(1, "b".data), (0, "a".data)]
    [(0, Event.message 0 "e" "a"), (1, Event.message 0 "e" "b")] rfl

theorem replayFrom_error_of_bad {read : FName → Option String}
    {decode : String → Option Event} {l : List (Nat × FName)}
    (h : ∃ p ∈ l, (read p.2).bind decode = none) :
    ∃ f, replayFrom false read decode l = .error f ∧
      (read f).bind decode = none := by
  induction l with
  | nil => rcases h with ⟨p, hp, -⟩; cases hp
  | cons hd rest ih =>
    obtain ⟨n, f⟩ := hd
    cases hdec : (read f).bind decode with
    | none => exact ⟨f, by rw [replayFrom, hdec]; rfl, hdec⟩
    | some e =>
      have hbad : ∃ p ∈ rest, (read p.2).bind decode = none := by
        rcases h with ⟨p, hp, hpd⟩
        rcases List.mem_cons.mp hp with rfl | hp'
        · rw [hdec] at hpd; cases hpd
        · exact ⟨p, hp', hpd⟩
      rcases ih hbad with ⟨g, hg, hgd⟩
      exact ⟨g, by rw [replayFrom, hdec, hg]; rfl, hgd⟩

/-- C5: For every mapping containing at least one file whose content does
not decode (structurally invalid payload), strict replay (skip-on-error not
requested) fails with a `CorruptEvent` error carrying an offending filename —
it does not return a partial sequence silently truncated before the bad
entry. -/
theorem replay_corrupt_fails (read : FName → Option String)
    (decode : String → Option Event) (m : List (Nat × FName))
    (n₀ : Nat) (f₀ : FName) (hmem : (n₀, f₀) ∈ m)
    (hbad : (read f₀).bind decode = none) :
    ∃ f, replay false read decode m = .error f ∧
      (read f).bind decode = none := by
  apply replayFrom_error_of_bad
  exact ⟨(n₀, f₀), (List.perm_insertionSort _ m).mem_iff.mpr hmem, hbad⟩

/-- Witness for C5: a one-entry mapping whose file fails to decode makes
strict replay return an error rather than a truncated sequence. -/
theorem replay_corrupt_fails_witness :
    ∃ f, replay false (fun _ => some "oops") (fun _ => none)
        [((0 : Nat), "bad".data)] = .error f ∧
      ((fun (_ : FName) => some "oops") f).bind
        (fun (_ : String) => (none : Option Event)) = none :=
  replay_corrupt_fails (fun _ => some "oops") (fun _ => none)
    [(0, "bad".data)] 0 "bad".data (by decide) rfl

/-- Modelled from the spec: `Indexer.rebuild` lists all entries, keeps those
matching the expected filename pattern in the numeric mapping, and collects
every pattern-mismatched entry into an anomaly list reported to the caller
(skipped, not aborting the rebuild, and never silently dropped).  The
benchmark caller's own loop (`if m: index[...] = fname`) realizes only the
skipping; the reporting is the Indexer contract from the spec. -/
def rebuildWithAnomalies (listing : List FName) :
    List (Nat × FName) × List FName :=
  (pySorted listing).foldl
    (fun acc fname =>
      match matchEventName fname with
      | some n => (dictInsert acc.1 n fname, acc.2)
      | none => (acc.1, acc.2 ++ [fname]))
    ([], [])

theorem rebuildWithAnomalies_fold (l : List FName)
    (acc : List (Nat × FName) × List FName) :
    (l.foldl
      (fun acc fname =>
        match matchEventName fname with
        | some n => (dictInsert acc.1 n fname, acc.2)
        | none => (acc.1, acc.2 ++ [fname]))
      acc).2 =
      acc.2 ++ l.filter (fun f => (matchEventName f).isNone) := by
  induction l generalizing acc with
  | nil => simp
  | cons f rest ih =>
    cases hm : matchEventName f with
    | some n =>
      rw [List.foldl_cons]
      simp only [hm]
      rw [ih]
      simp [List.filter_cons, hm]
    | none =>
      rw [List.foldl_cons]
      simp only [hm]
      rw [ih]
      simp [List.filter_cons, hm]

/-- C6: For every event directory listing, the Indexer's rebuild skips
each entry that fails to match the expected filename pattern without
aborting (the rebuild is a total function producing the mapping), and the
skipped entries are reported to the caller as a list of anomalies that is a
permutation of exactly the pattern-mismatched entries of the listing — in
particular every pattern-mismatched file of the listing appears in the
report, so none is dropped silently. -/
theorem rebuildWithAnomalies_reports (listing : List FName) :
    ((rebuildWithAnomalies listing).2).Perm
        (listing.filter (fun f => (matchEventName f).isNone)) ∧
      ∀ f ∈ listing, (matchEventName f).isNone = true →
        f ∈ (rebuildWithAnomalies listing).2 := by
  have hval : (rebuildWithAnomalies listing).2 =
      (pySorted listing).filter (fun f => (matchEventName f).isNone) := by
    unfold rebuildWithAnomalies
    rw [rebuildWithAnomalies_fold]
    simp
  constructor
  · rw [hval]
    exact (pySorted_perm listing).filter _
  · intro f hf hnone
    rw [hval]
    exact List.mem_filter.mpr ⟨(pySorted_perm listing).mem_iff.mpr hf, hnone⟩

/-- Witness for C6: a listing with one well-formed and one malformed entry
reports the malformed one in the anomaly list. -/
theorem rebuildWithAnomalies_reports_witness :
    "junk.txt".data ∈
      (rebuildWithAnomalies ["event-0-ab.json".data, "junk.txt".data]).2 :=
  (rebuildWithAnomalies_reports
      ["event-0-ab.json".data, "junk.txt".data]).2
    "junk.txt".data (by decide) (by rfl)

/-- Modelled from the spec: event serialization — one JSON object per event
with a top-level `kind` field identifying the variant, plus `index`, `id`,
and the variant-specific payload fields (the SDK's pydantic serialization is
not in the repository). -/
def serializeEvent : Event → JsonVal
  | .systemPrompt idx eid content =>
    .obj [("kind", .str "SystemPromptEvent"), ("index", .num idx),
          ("id", .str eid), ("content", .str content)]
  | .message idx eid content =>
    .obj [("kind", .str "MessageEvent"), ("index", .num idx),
          ("id", .str eid), ("content", .str content)]
  | .action idx eid tool args =>
    .obj [("kind", .str "ActionEvent"), ("index", .num idx),
          ("id", .str eid), ("tool", .str tool), ("args", .str args)]
  | .observation idx eid cause result =>
    .obj [("kind", .str "ObservationEvent"), ("index", .num idx),
          ("id", .str eid), ("action_id", .str cause), ("result", .str result)]
  | .stateUpdate idx eid diff =>
    .obj [("kind", .str "ConversationStateUpdateEvent"), ("index", .num idx),
          ("id", .str eid), ("diff", .str diff)]
  | .agentError idx eid err =>
    .obj [("kind", .str "AgentErrorEvent"), ("index", .num idx),
          ("id", .str eid), ("error", .str err)]

/-- Read a string field. -/
def getStr : Option JsonVal → Option String
  | some (.str s) => some s
  | _ => none

/-- Read a non-negative integer field. -/
def getNat : Option JsonVal → Option Nat
  | some (.num q) => if q.den = 1 ∧ 0 ≤ q.num then some q.num.toNat else none
  | _ => none

/-- Modelled from the spec: event deserialization — exhaustive dispatch on
the `kind` discriminant; an unrecognized kind or a missing/ill-typed field
is a failure rather than a silently mended value. -/
def deserializeEvent : JsonVal → Option Event
  | .obj fields => do
    let kind ← getStr (fields.lookup "kind")
    let idx ← getNat (fields.lookup "index")
    let eid ← getStr (fields.lookup "id")
    match kind with
    | "SystemPromptEvent" => do
      let content ← getStr (fields.lookup "content")
      pure (.systemPrompt idx eid content)
    | "MessageEvent" => do
      let content ← getStr (fields.lookup "content")
      pure (.message idx eid content)
    | "ActionEvent" => do
      let tool ← getStr (fields.lookup "tool")
      let args ← getStr (fields.lookup "args")
      pure (.action idx eid tool args)
    | "ObservationEvent" => do
      let cause ← getStr (fields.lookup "action_id")
      let result ← getStr (fields.lookup "result")
      pure (.observation idx eid cause result)
    | "ConversationStateUpdateEvent" => do
      let diff ← getStr (fields.lookup "diff")
      pure (.stateUpdate idx eid diff)
    | "AgentErrorEvent" => do
      let err ← getStr (fields.lookup "error")
      pure (.agentError idx eid err)
    | _ => none
  | _ => none

theorem getNat_natCast (n : Nat) : getNat (some (.num n)) = some n := by
  show (if ((n : ℚ)).den = 1 ∧ 0 ≤ ((n : ℚ)).num
      then some ((n : ℚ)).num.toNat else none) = some n
  rw [if_pos ⟨Rat.den_natCast n, by simp⟩]
  simp

/-- C7: For every event value, deserializing the result of serializing
that event yields the original event, field for field. -/
theorem serialize_roundTrip (e : Event) :
    deserializeEvent (serializeEvent e) = some e := by
  cases e <;>
    simp [serializeEvent, deserializeEvent, getStr, List.lookup,
      getNat_natCast, Option.bind]

/-- The result of running a scope's body: normal return, error, or external
cancellation. -/
inductive Outcome (α : Type) where
  | ok (a : α)
  | error (msg : String)
  | cancelled

/-- The state of the file store: the set of currently held lock keys and the
stored data. -/
structure StoreSt (σ : Type) where
  held : List String
  data : σ

/-- Modelled from the spec: `FileStore.lock(key, timeout)` as a scoped guard
(`with fs.lock(...)` in the benchmark): acquisition fails with `Timeout`
when the lock is unavailable and leaves the state unchanged; on successful
acquisition the body runs and the guard releases the lock afterwards on
every exit path of the scope — whether the body returned normally, raised an
error, or was cancelled. -/
def withLock {σ α : Type} (key : String) (body : σ → Outcome α × σ)
    (st : StoreSt σ) : Outcome α × StoreSt σ :=
  if key ∈ st.held then (.error "Timeout", st)
  else
    let acquired := key :: st.held
    let res := body st.data
    (res.1, { held := acquired.filter (fun k => k ≠ key), data := res.2 })

/-- C8: For every scope that acquires the lock guard (acquisition
succeeded, i.e. the key was not already held), the lock is released when the
scope exits on every exit path — for every body, hence for bodies that
return normally, raise an error, or are cancelled — so the set of held locks
after the scope equals the set before it and the key is not left held. -/
theorem withLock_releases {σ α : Type} (key : String)
    (body : σ → Outcome α × σ) (st : StoreSt σ) (hfree : key ∉ st.held) :
    (withLock key body st).2.held = st.held ∧
      key ∉ (withLock key body st).2.held := by
  have hrel : (withLock key body st).2.held = st.held := by
    unfold withLock
    rw [if_neg hfree]
    show (key :: st.held).filter (fun k => k ≠ key) = st.held
    rw [List.filter_cons]
    simp only [ne_eq, not_true_eq_false, decide_False, Bool.false_eq_true,
      if_false]
    rw [List.filter_eq_self]
    intro a ha
    simp only [ne_eq, decide_eq_true_eq]
    intro heq
    exact hfree (heq ▸ ha)
  exact ⟨hrel, by rw [hrel]; exact hfree⟩

/-- Witness for C8: a body that is cancelled midway still leaves the lock
set exactly as before the scope. -/
theorem withLock_releases_witness :
    (withLock "events/.eventlog.lock"
        (fun (d : Nat) => ((Outcome.cancelled : Outcome Unit), d + 1))
        ⟨[], 0⟩).2.held = [] ∧
      "events/.eventlog.lock" ∉
        (withLock "events/.eventlog.lock"
          (fun (d : Nat) => ((Outcome.cancelled : Outcome Unit), d + 1))
          ⟨[], 0⟩).2.held :=
  withLock_releases "events/.eventlog.lock"
    (fun d => (Outcome.cancelled, d + 1)) ⟨[], 0⟩ (by simp)
